import Mathlib

/-!
Shallow embedding of the NeuroCursor signal-to-intent decision pipeline.

The definitions below are transcribed from the Python sources:
`eeg_cursor_control.py` (threshold_predict, model_predict, control_loop),
`eeg_model_trainer.py` (rolling smoothing and derived features),
`train_data_collect.py` (_run_calibration), and
`effort_based_control.py` (the EMA state of update_loop).
Machine integers are modelled as `Int`; floating point values are modelled
as `Rat` (the arithmetic in scope is exact decimal arithmetic).
-/

namespace NeuroCursor

/-- One tick of sensor metrics, mirroring the module-level `current_data`
dictionary of `eeg_cursor_control.py` (keys sig, att, med, raw, delta, theta,
la, ha, lb, hb, lg, mg). -/
structure CurrentData where
  sig : Int
  att : Int
  med : Int
  raw : Int
  delta : Int
  theta : Int
  la : Int
  ha : Int
  lb : Int
  hb : Int
  lg : Int
  mg : Int
deriving DecidableEq, Repr

/-- `threshold_predict` of `eeg_cursor_control.py` (lines 320-338): band
dominance rules evaluated in order, `IDLE` when none matches. -/
def thresholdPredict (d : CurrentData) : String :=
  if d.lb > d.hb + 5000 then "LEFT"
  else if d.hb > d.lb + 5000 then "RIGHT"
  else if d.la > d.ha + 3000 then "UP"
  else if d.ha > d.la + 3000 then "DOWN"
  else "IDLE"

/-- Maximum of a list of rationals; mirrors `np.max` on a nonempty array
(the empty case, which numpy rejects, is mapped to 0). -/
def pyMax : List ℚ → ℚ
  | [] => 0
  | h :: t => t.foldl max h

/-- First index attaining the maximum; mirrors `np.argmax`. -/
def argmaxIdx (l : List ℚ) : ℕ := l.findIdx (fun x => x == pyMax l)

/-- The decision tail of `model_predict` (lines 386-401): take the arg-max
class of the probability vector, but fall back to `IDLE` when the maximum
probability is below the hardcoded 0.55 floor. -/
def modelDecision (classes : List String) (probs : List ℚ) : String :=
  if pyMax probs < 0.55 then "IDLE" else classes.getD (argmaxIdx probs) "IDLE"

/-- The `base_data` dictionary built by `model_predict` (lines 354-363):
exactly the seven focused TGAM channels, signal quality excluded. -/
structure BaseFeatures where
  attention : ℚ
  meditation : ℚ
  theta : ℚ
  low_alpha : ℚ
  high_alpha : ℚ
  low_beta : ℚ
  high_beta : ℚ
deriving DecidableEq, Repr

/-- Extraction of `base_data` from the shared `current_data` state. -/
def baseFeatures (d : CurrentData) : BaseFeatures :=
  { attention := (d.att : ℚ)
    meditation := (d.med : ℚ)
    theta := (d.theta : ℚ)
    low_alpha := (d.la : ℚ)
    high_alpha := (d.ha : ℚ)
    low_beta := (d.lb : ℚ)
    high_beta := (d.hb : ℚ) }

/-- The four derived features (`alpha_theta_ratio`, `beta_alpha_ratio`,
`beta_theta_ratio`, `engagement_ratio` in the source). -/
structure RatioFeatures where
  alpha_theta : ℚ
  beta_alpha : ℚ
  beta_theta : ℚ
  engagement : ℚ
deriving DecidableEq, Repr

/-- The ratio feature engineering of `eeg_model_trainer.py` (lines 95-102),
as a function of the (already smoothed) channel values. -/
def trainerRatios (attention meditation theta low_alpha high_alpha
    low_beta high_beta : ℚ) : RatioFeatures :=
  let alpha_sum := low_alpha + high_alpha
  let beta_sum := low_beta + high_beta
  { alpha_theta := alpha_sum / (theta + 1)
    beta_alpha := beta_sum / (alpha_sum + 1)
    beta_theta := beta_sum / (theta + 1)
    engagement := attention / (meditation + 1) }

/-- The `derived_features` block of `model_predict` in `eeg_cursor_control.py`
(lines 365-375), transcribed independently of `trainerRatios`. -/
def inferRatios (attention meditation theta low_alpha high_alpha
    low_beta high_beta : ℚ) : RatioFeatures :=
  let alpha_sum := low_alpha + high_alpha
  let beta_sum := low_beta + high_beta
  { alpha_theta := alpha_sum / (theta + 1)
    beta_alpha := beta_sum / (alpha_sum + 1)
    beta_theta := beta_sum / (theta + 1)
    engagement := attention / (meditation + 1) }

/-- The pure decision pipeline of `model_predict` (lines 340-405): build the
base features and derived features from the current tick and delegate to the
classifier capability (`predict_proba`, abstracted as a function of the
feature vector).  Signal quality is never consulted. -/
def modelPredict (d : CurrentData) (classes : List String)
    (predictProba : BaseFeatures → RatioFeatures → List ℚ) : String :=
  let b := baseFeatures d
  modelDecision classes
    (predictProba b (inferRatios b.attention b.meditation b.theta
      b.low_alpha b.high_alpha b.low_beta b.high_beta))

/-! ### Debouncer: the smoothing block of `control_loop` (lines 285-318) -/

/-- `SMOOTHING_WINDOW = 5` (line 33), the `maxlen` of `prediction_buffer`. -/
def SMOOTHING_WINDOW : ℕ := 5

/-- `prediction_buffer.append(direction)` on a `deque(maxlen=SMOOTHING_WINDOW)`:
append on the right, evicting from the left once the capacity is exceeded. -/
def pushWindow (w : List String) (x : String) : List String :=
  let w2 := w ++ [x]
  if SMOOTHING_WINDOW < w2.length then w2.drop (w2.length - SMOOTHING_WINDOW) else w2

/-- The labels of `l` in order of first occurrence: the key insertion order of
`collections.Counter(l)`. -/
def uniques (l : List String) : List String :=
  l.foldl (fun acc x => if x ∈ acc then acc else acc ++ [x]) []

/-- The largest multiplicity occurring in `l`. -/
def maxCount (l : List String) : ℕ :=
  ((uniques l).map l.count).foldl max 0

/-- `Counter(l).most_common(1)[0][0]`: `most_common` sorts the counter items
by count, descending and stably, so ties are resolved in favour of the label
whose first occurrence in `l` is earliest. -/
def mostCommon1 (l : List String) : Option String :=
  (uniques l).find? (fun y => l.count y == maxCount l)

/-- The vote of `control_loop` (lines 294-300): once the buffer holds at least
3 predictions, replace the raw direction by the most common buffered one. -/
def debounceOut (w2 : List String) (r : String) : String :=
  if 3 ≤ w2.length then (mostCommon1 w2).getD r else r

/-- One iteration of the smoothing and action block of `control_loop`
(lines 294-312): append the raw direction, vote, and clear the buffer after a
`CLICK` is emitted (line 309).  Returns the new buffer and the emitted label. -/
def controlStep (w : List String) (r : String) : List String × String :=
  let w2 := pushWindow w r
  let out := debounceOut w2 r
  if out = "CLICK" then ([], out) else (w2, out)

/-- The emitted labels of `control_loop` over a sequence of raw predictions,
starting from buffer `w`. -/
def controlRun : List String → List String → List String
  | _, [] => []
  | w, r :: rs => (controlStep w r).2 :: controlRun (controlStep w r).1 rs

/-! ### EMA smoothing state of `effort_based_control.py` -/

/-- `EMA_ALPHA = 0.2` (line 53). -/
def EMA_ALPHA : ℚ := 0.2

/-- The EMA update of `update_loop` (line 284):
`avg_att = (EMA_ALPHA * att) + ((1 - EMA_ALPHA) * avg_att)`. -/
def emaStep (avg v : ℚ) : ℚ := EMA_ALPHA * v + (1 - EMA_ALPHA) * avg

/-- The successive values taken by the `avg_att` accumulator over a run of
`update_loop`, starting from accumulator value `a` (the module seeds
`avg_att = 0.0` at line 50). -/
def emaOutputs : ℚ → List ℚ → List ℚ
  | _, [] => []
  | a, v :: vs => emaStep a v :: emaOutputs (emaStep a v) vs

/-! ### Baseline calibration: `_run_calibration` of `train_data_collect.py` -/

/-- The channels averaged by `_run_calibration` (line 421):
`keys = ["att", "med", "delta", "theta", "la", "ha", "lb", "hb", "lg", "mg"]`. -/
inductive Channel where
  | att | med | delta | theta | la | ha | lb | hb | lg | mg
deriving DecidableEq, Repr

/-- A raw sample observed during the calibration window: its signal quality
and its per-channel values. -/
structure CalSample where
  sig : Int
  ch : Channel → ℚ

/-- The samples retained by the calibration loop (line 414):
`if current_data["sig"] < 50: temp_data.append(...)`. -/
def acceptedSamples (samples : List CalSample) : List CalSample :=
  samples.filter (fun s => s.sig < 50)

/-- `_run_calibration` (lines 407-435) as a function of the samples observed
during the 10-second window and the previous baseline: when at least one
sample was accepted, every channel of the baseline becomes the arithmetic
mean of that channel over the accepted samples and a success is reported;
otherwise the "Failed - check signal quality" warning is raised and the
baseline is left untouched. -/
def calibrate (samples : List CalSample) (b : Channel → ℚ) :
    Bool × (Channel → ℚ) :=
  let acc := acceptedSamples samples
  if 0 < acc.length then
    (true, fun k => ((acc.map fun s => s.ch k).sum) / (acc.length : ℚ))
  else
    (false, b)

/-! ### Offline feature engineering of `eeg_model_trainer.py` (lines 84-102) -/

/-- One row of the recorded training data, after the global
`sort_values('timestamp')`: the direction label and the raw channel values. -/
structure TrainRow where
  direction : String
  attention : ℚ
  meditation : ℚ
  theta : ℚ
  low_alpha : ℚ
  high_alpha : ℚ
  low_beta : ℚ
  high_beta : ℚ
deriving Repr

/-- A row of all zeroes (out-of-range accesses never arise in the theorems). -/
def zeroRow : TrainRow :=
  { direction := "", attention := 0, meditation := 0, theta := 0,
    low_alpha := 0, high_alpha := 0, low_beta := 0, high_beta := 0 }

/-- `rolling(window=3, min_periods=1).mean()` evaluated at the last position
of `l`: the mean of the last `min 3 l.length` entries. -/
def rollingLast3 (l : List ℚ) : ℚ :=
  let k := min 3 l.length
  (l.drop (l.length - k)).sum / (k : ℚ)

/-- The smoothed value of channel `f` at row `i` of the recorded data:
`groupby('direction', sort=False)[col].transform(rolling(3).mean)` keeps,
for row `i`, the rolling mean over the rows of the same direction up to and
including `i`. -/
def smoothedAt (rows : List TrainRow) (f : TrainRow → ℚ) (i : ℕ) : ℚ :=
  rollingLast3
    (((rows.take (i + 1)).filter
        (fun r => r.direction = (rows.getD i zeroRow).direction)).map f)

/-- The derived features the trainer computes for row `i`: the ratio formulas
applied to the causally smoothed channels. -/
def offlineFeaturesAt (rows : List TrainRow) (i : ℕ) : RatioFeatures :=
  trainerRatios
    (smoothedAt rows (fun r => r.attention) i)
    (smoothedAt rows (fun r => r.meditation) i)
    (smoothedAt rows (fun r => r.theta) i)
    (smoothedAt rows (fun r => r.low_alpha) i)
    (smoothedAt rows (fun r => r.high_alpha) i)
    (smoothedAt rows (fun r => r.low_beta) i)
    (smoothedAt rows (fun r => r.high_beta) i)

/-- The derived features `model_predict` computes online for tick `i` of the
same recorded sequence: the ratio formulas applied to the raw (unsmoothed)
channel values of that tick. -/
def onlineFeaturesAt (rows : List TrainRow) (i : ℕ) : RatioFeatures :=
  let r := rows.getD i zeroRow
  inferRatios r.attention r.meditation r.theta
    r.low_alpha r.high_alpha r.low_beta r.high_beta

/-! ### Helper lemmas about folds, `uniques` and `mostCommon1` -/

lemma init_le_foldl_max {α : Type} [LinearOrder α] (L : List α) (init : α) :
    init ≤ L.foldl max init := by
  induction L generalizing init with
  | nil => exact le_rfl
  | cons h t ih => exact le_trans (le_max_left init h) (ih (max init h))

lemma elem_le_foldl_max {α : Type} [LinearOrder α] (L : List α) (init a : α)
    (ha : a ∈ L) : a ≤ L.foldl max init := by
  induction L generalizing init with
  | nil => simp at ha
  | cons h t ih =>
    rcases List.mem_cons.mp ha with rfl | ha2
    · exact le_trans (le_max_right init a) (init_le_foldl_max t (max init a))
    · exact ih (max init h) ha2

lemma foldl_max_choice {α : Type} [LinearOrder α] (L : List α) (init : α) :
    L.foldl max init = init ∨ L.foldl max init ∈ L := by
  induction L generalizing init with
  | nil => exact Or.inl rfl
  | cons h t ih =>
    rcases ih (max init h) with he | hm
    · rcases max_choice init h with h1 | h1
      · exact Or.inl (by rw [List.foldl_cons, he, h1])
      · refine Or.inr ?_
        rw [List.foldl_cons, he, h1]
        exact List.mem_cons_self h t
    · exact Or.inr (List.mem_cons_of_mem h hm)

lemma mem_foldl_uniqueStep (l : List String) (acc : List String) (x : String) :
    (x ∈ l.foldl (fun acc y => if y ∈ acc then acc else acc ++ [y]) acc)
      ↔ x ∈ acc ∨ x ∈ l := by
  induction l generalizing acc with
  | nil => simp
  | cons h t ih =>
    rw [List.foldl_cons, ih]
    by_cases hh : h ∈ acc
    · simp only [if_pos hh, List.mem_cons]
      constructor
      · rintro (hx | hx)
        · exact Or.inl hx
        · exact Or.inr (Or.inr hx)
      · rintro (hx | rfl | hx)
        · exact Or.inl hx
        · exact Or.inl hh
        · exact Or.inr hx
    · simp only [if_neg hh, List.mem_append, List.mem_singleton, List.mem_cons]
      tauto

lemma mem_uniques (l : List String) (x : String) : x ∈ uniques l ↔ x ∈ l := by
  unfold uniques
  rw [mem_foldl_uniqueStep]
  simp

lemma count_le_maxCount (l : List String) (y : String) (hy : y ∈ l) :
    l.count y ≤ maxCount l :=
  elem_le_foldl_max _ 0 _ (List.mem_map_of_mem l.count ((mem_uniques l y).mpr hy))

lemma maxCount_exists (l : List String) (hne : l ≠ []) :
    ∃ y ∈ uniques l, l.count y = maxCount l := by
  rcases foldl_max_choice ((uniques l).map l.count) 0 with h0 | hm
  · exfalso
    obtain ⟨y, hy⟩ := List.exists_mem_of_ne_nil l hne
    have hle : l.count y ≤ maxCount l := count_le_maxCount l y hy
    have h0m : maxCount l = 0 := h0
    have : l.count y = 0 := Nat.le_zero.mp (h0m ▸ hle)
    exact List.count_eq_zero.mp this hy
  · obtain ⟨y, hyu, hcy⟩ := List.mem_map.mp hm
    exact ⟨y, hyu, hcy⟩

lemma find?_eq_some_split {α : Type} (p : α → Bool) (L : List α) (a : α)
    (h : L.find? p = some a) :
    p a = true ∧ ∃ pre post, L = pre ++ a :: post ∧ ∀ b ∈ pre, p b = false := by
  induction L with
  | nil => simp [List.find?] at h
  | cons x t ih =>
    by_cases hx : p x = true
    · rw [List.find?_cons_of_pos t hx] at h
      obtain rfl : x = a := by injection h
      exact ⟨hx, [], t, rfl, by intro b hb; simp at hb⟩
    · rw [List.find?_cons_of_neg t hx] at h
      obtain ⟨hp, pre, post, heq, hpre⟩ := ih h
      refine ⟨hp, x :: pre, post, by rw [heq]; rfl, ?_⟩
      intro b hb
      rcases List.mem_cons.mp hb with rfl | hb2
      · exact Bool.not_eq_true _ ▸ hx
      · exact hpre b hb2

lemma mostCommon1_mem (l : List String) (m : String)
    (h : mostCommon1 l = some m) : m ∈ l := by
  unfold mostCommon1 at h
  exact (mem_uniques l m).mp (List.mem_of_find?_eq_some h)

lemma mostCommon1_spec (l : List String) (m : String)
    (h : mostCommon1 l = some m) :
    m ∈ l ∧ l.count m = maxCount l ∧
      ∃ pre post, uniques l = pre ++ m :: post ∧
        ∀ y ∈ pre, l.count y < l.count m := by
  unfold mostCommon1 at h
  obtain ⟨hp, pre, post, heq, hpre⟩ := find?_eq_some_split _ _ _ h
  have hcm : l.count m = maxCount l := by simpa using hp
  have hmu : m ∈ uniques l := by
    rw [heq]
    exact List.mem_append_right _ (List.mem_cons_self m post)
  refine ⟨(mem_uniques l m).mp hmu, hcm, pre, post, heq, ?_⟩
  intro y hy
  have hyu : y ∈ uniques l := by
    rw [heq]
    exact List.mem_append_left _ hy
  have h1 : l.count y ≤ maxCount l := count_le_maxCount l y ((mem_uniques l y).mp hyu)
  have h2 : l.count y ≠ maxCount l := by simpa using hpre y hy
  rw [hcm]
  exact lt_of_le_of_ne h1 h2

lemma mostCommon1_ne_none (l : List String) (hne : l ≠ []) :
    ∃ m, mostCommon1 l = some m := by
  obtain ⟨y, hyu, hcy⟩ := maxCount_exists l hne
  rcases ho : mostCommon1 l with _ | m
  · exfalso
    unfold mostCommon1 at ho
    have := List.find?_eq_none.mp ho y hyu
    simp [hcy] at this
  · exact ⟨m, rfl⟩

lemma mem_pushWindow (w : List String) (x y : String)
    (h : y ∈ pushWindow w x) : y ∈ w ++ [x] := by
  simp only [pushWindow] at h
  split at h
  · exact List.mem_of_mem_drop h
  · exact h

lemma pushWindow_length_le (w : List String) (x : String) :
    (pushWindow w x).length ≤ SMOOTHING_WINDOW := by
  simp only [pushWindow, SMOOTHING_WINDOW]
  split
  · rw [List.length_drop]
    omega
  · rename_i hlen
    omega

lemma controlStep_snd (w : List String) (r : String) :
    (controlStep w r).2 = debounceOut (pushWindow w r) r := by
  simp only [controlStep]
  split <;> rfl

lemma controlStep_fst (w : List String) (r : String) :
    (controlStep w r).1 = [] ∨ (controlStep w r).1 = pushWindow w r := by
  simp only [controlStep]
  split
  · exact Or.inl rfl
  · exact Or.inr rfl

lemma controlStep_click_clears (w : List String) (r : String)
    (h : (controlStep w r).2 = "CLICK") : (controlStep w r).1 = [] := by
  simp only [controlStep] at h ⊢
  split at h
  · rename_i hcond
    rw [if_pos hcond]
  · rename_i hcond
    exact absurd h hcond

lemma controlRun_no_click (rs : List String) : ∀ w : List String,
    (∀ y ∈ w, y ≠ "CLICK") → (∀ r ∈ rs, r ≠ "CLICK") →
    "CLICK" ∉ controlRun w rs := by
  induction rs with
  | nil =>
    intro w _ _ h
    simp [controlRun] at h
  | cons r rs ih =>
    intro w hw hr
    have hx : ∀ y ∈ pushWindow w r, y ≠ "CLICK" := by
      intro y hy
      rcases List.mem_append.mp (mem_pushWindow w r y hy) with h2 | h2
      · exact hw y h2
      · rw [List.mem_singleton] at h2
        subst h2
        exact hr y (List.mem_cons_self y rs)
    have hout : (controlStep w r).2 ≠ "CLICK" := by
      rw [controlStep_snd]
      unfold debounceOut
      split
      · rcases ho : mostCommon1 (pushWindow w r) with _ | m
        · rw [Option.getD_none]
          exact hr r (List.mem_cons_self r rs)
        · rw [Option.getD_some]
          exact hx m (mostCommon1_mem _ _ ho)
      · exact hr r (List.mem_cons_self r rs)
    have hnext : ∀ y ∈ (controlStep w r).1, y ≠ "CLICK" := by
      rcases controlStep_fst w r with h1 | h1
      · rw [h1]
        intro y hy
        simp at hy
      · rw [h1]
        exact hx
    have hrun : controlRun w (r :: rs)
        = (controlStep w r).2 :: controlRun (controlStep w r).1 rs := rfl
    rw [hrun]
    intro hmem
    rcases List.mem_cons.mp hmem with h2 | h2
    · exact hout h2.symm
    · exact ih (controlStep w r).1 hnext
        (fun x hx2 => hr x (List.mem_cons_of_mem r hx2)) h2

lemma pyMax_mem (probs : List ℚ) (hne : probs ≠ []) : pyMax probs ∈ probs := by
  cases probs with
  | nil => exact absurd rfl hne
  | cons h t =>
    rcases foldl_max_choice t h with h1 | h1
    · show t.foldl max h ∈ h :: t
      rw [h1]
      exact List.mem_cons_self h t
    · exact List.mem_cons_of_mem h h1

lemma le_pyMax (probs : List ℚ) (p : ℚ) (hp : p ∈ probs) : p ≤ pyMax probs := by
  cases probs with
  | nil => simp at hp
  | cons h t =>
    rcases List.mem_cons.mp hp with rfl | hp2
    · exact init_le_foldl_max t p
    · exact elem_le_foldl_max t h p hp2

lemma findIdx_beq_getD (l : List ℚ) (a d : ℚ) (ha : a ∈ l) :
    l.getD (l.findIdx fun x => x == a) d = a := by
  induction l with
  | nil => simp at ha
  | cons h t ih =>
    rw [List.findIdx_cons]
    by_cases hh : h = a
    · subst hh
      simp
    · have hb : (h == a) = false := by
        simp [hh]
      rw [hb, Bool.cond_false]
      have ha2 : a ∈ t := by
        rcases List.mem_cons.mp ha with h2 | h2
        · exact absurd h2.symm hh
        · exact h2
      simpa using ih ha2

/-! ### Claim theorems -/

/-- A tick with very poor signal quality (`sig = 200`, the "no data" sentinel)
but a dominant low-beta band. -/
def noisyTick : CurrentData :=
  { sig := 200, att := 0, med := 0, raw := 0, delta := 0, theta := 0,
    la := 0, ha := 0, lb := 6000, hb := 0, lg := 0, mg := 0 }

/-- C1 counterexample: at a tick whose signal-quality reading (200) is worse
than the ceiling used elsewhere in the repository (50), `threshold_predict`
still returns LEFT and `model_predict` still returns the classifier's
arg-max label: neither variant forces IDLE on poor quality. -/
theorem c1_counterexample :
    50 < noisyTick.sig ∧
    thresholdPredict noisyTick = "LEFT" ∧
    modelPredict noisyTick ["LEFT"] (fun _ _ => [1]) = "LEFT" ∧
    ("LEFT" : String) ≠ "IDLE" := by
  refine ⟨by decide, by decide, ?_, by decide⟩
  norm_num [modelPredict, modelDecision, pyMax, argmaxIdx, baseFeatures,
    List.findIdx_cons]

/-- C1 (amended): neither IntentDecider variant consults the signal-quality
reading at all: the outputs of `threshold_predict` and `model_predict` are
invariant under arbitrary changes to the `sig` field of the current tick, so
there is no signal-quality gate and no ceiling that forces IDLE. -/
theorem c1_no_quality_gate (d : CurrentData) (q : Int) (classes : List String)
    (predictProba : BaseFeatures → RatioFeatures → List ℚ) :
    thresholdPredict { d with sig := q } = thresholdPredict d ∧
    modelPredict { d with sig := q } classes predictProba
      = modelPredict d classes predictProba :=
  ⟨rfl, rfl⟩

/-- The recorded three-tick training sequence (one direction group, sorted by
timestamp) exhibiting train/serve skew: theta jumps to 3 at the last tick. -/
def skewRows : List TrainRow :=
  [ { direction := "LEFT", attention := 0, meditation := 0, theta := 0,
      low_alpha := 2, high_alpha := 0, low_beta := 0, high_beta := 0 },
    { direction := "LEFT", attention := 0, meditation := 0, theta := 0,
      low_alpha := 2, high_alpha := 0, low_beta := 0, high_beta := 0 },
    { direction := "LEFT", attention := 0, meditation := 0, theta := 3,
      low_alpha := 2, high_alpha := 0, low_beta := 0, high_beta := 0 } ]

/-- C2: the offline trainer smooths the base channels with a 3-point causal
rolling mean before deriving the ratio features, while the online
`model_predict` derives them from the raw instantaneous channel values, so
the two feature computations disagree at tick 2 of `skewRows`: offline the
smoothed theta is 1 and the alpha/theta feature is 1, online the raw theta
is 3 and the same feature is 1/2. -/
theorem c2_train_serve_skew :
    (offlineFeaturesAt skewRows 2).alpha_theta = 1 ∧
    (onlineFeaturesAt skewRows 2).alpha_theta = 1 / 2 ∧
    (offlineFeaturesAt skewRows 2).alpha_theta
      ≠ (onlineFeaturesAt skewRows 2).alpha_theta := by
  have h1 : (offlineFeaturesAt skewRows 2).alpha_theta = 1 := by
    norm_num [offlineFeaturesAt, smoothedAt, rollingLast3, trainerRatios,
      zeroRow, skewRows, List.filter]
  have h2 : (onlineFeaturesAt skewRows 2).alpha_theta = 1 / 2 := by
    norm_num [onlineFeaturesAt, inferRatios, zeroRow, skewRows]
  refine ⟨h1, h2, ?_⟩
  rw [h1, h2]
  norm_num

/-- C3: the four derived features are computed by the same formulas at
training time (`eeg_model_trainer.py`) and at inference time
(`model_predict`), those formulas are exactly the ones of the claim, and for
non-negative integer channel values every denominator is at least 1, so
division by zero is impossible. -/
theorem c3_feature_formulas (att med theta la ha lb hb : ℕ) :
    trainerRatios att med theta la ha lb hb
        = inferRatios att med theta la ha lb hb ∧
    (trainerRatios att med theta la ha lb hb).alpha_theta
        = ((la : ℚ) + ha) / ((theta : ℚ) + 1) ∧
    (trainerRatios att med theta la ha lb hb).beta_alpha
        = ((lb : ℚ) + hb) / ((la : ℚ) + ha + 1) ∧
    (trainerRatios att med theta la ha lb hb).beta_theta
        = ((lb : ℚ) + hb) / ((theta : ℚ) + 1) ∧
    (trainerRatios att med theta la ha lb hb).engagement
        = (att : ℚ) / ((med : ℚ) + 1) ∧
    (1 : ℚ) ≤ (theta : ℚ) + 1 ∧
    (1 : ℚ) ≤ (la : ℚ) + ha + 1 ∧
    (1 : ℚ) ≤ (med : ℚ) + 1 := by
  refine ⟨rfl, rfl, rfl, rfl, rfl, ?_, ?_, ?_⟩
  · linarith [(Nat.cast_nonneg theta : (0 : ℚ) ≤ (theta : ℚ))]
  · linarith [(Nat.cast_nonneg la : (0 : ℚ) ≤ (la : ℚ)),
      (Nat.cast_nonneg ha : (0 : ℚ) ≤ (ha : ℚ))]
  · linarith [(Nat.cast_nonneg med : (0 : ℚ) ≤ (med : ℚ))]

/-- C4: for every nonempty probability vector returned by the classifier
capability, `model_predict` returns IDLE when the maximum probability is
below the 0.55 confidence floor, and returns the arg-max class label when the
maximum probability is at or above the floor; the arg-max index really
attains the maximum of the vector. -/
theorem c4_confidence_floor (classes : List String) (probs : List ℚ)
    (hne : probs ≠ []) :
    (pyMax probs < 0.55 → modelDecision classes probs = "IDLE") ∧
    (0.55 ≤ pyMax probs →
      modelDecision classes probs = classes.getD (argmaxIdx probs) "IDLE" ∧
      probs.getD (argmaxIdx probs) 0 = pyMax probs ∧
      ∀ p ∈ probs, p ≤ probs.getD (argmaxIdx probs) 0) := by
  constructor
  · intro h
    unfold modelDecision
    rw [if_pos h]
  · intro h
    have hget : probs.getD (argmaxIdx probs) 0 = pyMax probs :=
      findIdx_beq_getD probs _ 0 (pyMax_mem probs hne)
    refine ⟨?_, hget, ?_⟩
    · unfold modelDecision
      rw [if_neg (not_lt.mpr h)]
    · intro p hp
      rw [hget]
      exact le_pyMax probs p hp

/-- C4 witness: with classes [LEFT, RIGHT], the probability vector
[0.3, 0.7] is above the floor and yields RIGHT, while [0.3, 0.4] is below
the floor and yields IDLE. -/
theorem c4_confidence_floor_witness :
    (([0.3, 0.7] : List ℚ) ≠ [] ∧ (0.55 : ℚ) ≤ pyMax [0.3, 0.7] ∧
      modelDecision ["LEFT", "RIGHT"] [0.3, 0.7] = "RIGHT") ∧
    (([0.3, 0.4] : List ℚ) ≠ [] ∧ pyMax [0.3, 0.4] < 0.55 ∧
      modelDecision ["LEFT", "RIGHT"] [0.3, 0.4] = "IDLE") := by
  have hmax7 : pyMax [(0.3 : ℚ), 0.7] = 0.7 := by
    rw [show pyMax [(0.3 : ℚ), 0.7] = max 0.3 0.7 from rfl]
    exact max_eq_right (by norm_num)
  have hmax4 : pyMax [(0.3 : ℚ), 0.4] = 0.4 := by
    rw [show pyMax [(0.3 : ℚ), 0.4] = max 0.3 0.4 from rfl]
    exact max_eq_right (by norm_num)
  constructor
  · refine ⟨by simp, by rw [hmax7]; norm_num, ?_⟩
    have h := ((c4_confidence_floor ["LEFT", "RIGHT"] [0.3, 0.7]
      (by simp)).2 (by rw [hmax7]; norm_num)).1
    rw [h]
    have hb1 : ((0.3 : ℚ) == pyMax [(0.3 : ℚ), 0.7]) = false := by
      rw [hmax7, beq_eq_false_iff_ne]
      norm_num
    have hb2 : ((0.7 : ℚ) == pyMax [(0.3 : ℚ), 0.7]) = true := by
      rw [hmax7]
      exact beq_self_eq_true _
    simp [argmaxIdx, List.findIdx_cons, hb1, hb2]
  · refine ⟨by simp, by rw [hmax4]; norm_num, ?_⟩
    exact (c4_confidence_floor ["LEFT", "RIGHT"] [0.3, 0.4]
      (by simp)).1 (by rw [hmax4]; norm_num)

/-- C5 counterexample: with the rolling window holding [LEFT, LEFT] and raw
intent RIGHT, the window [LEFT, LEFT, RIGHT] is not yet full (capacity 5),
yet `control_loop` already applies the majority vote and emits LEFT instead
of the most recent raw intent RIGHT. -/
theorem c5_counterexample :
    (pushWindow ["LEFT", "LEFT"] "RIGHT").length < SMOOTHING_WINDOW ∧
    (controlStep ["LEFT", "LEFT"] "RIGHT").2 = "LEFT" ∧
    ("LEFT" : String) ≠ "RIGHT" := by
  refine ⟨by decide, rfl, by decide⟩

/-- C5 (amended): the Debouncer appends each raw intent to a rolling window
of capacity 5 and, once the window holds at least 3 entries (not only when
full), returns a label of maximal multiplicity in the window; with fewer
than 3 entries it returns the most recent raw intent.  A tie between labels
of maximal multiplicity is broken deterministically in favour of the tied
label whose first occurrence in the window is earliest (counter insertion
order), not the most recently seen one. -/
theorem c5_debouncer (w : List String) (r : String) :
    (pushWindow w r).length ≤ SMOOTHING_WINDOW ∧
    ((pushWindow w r).length < 3 → (controlStep w r).2 = r) ∧
    (3 ≤ (pushWindow w r).length →
      (controlStep w r).2 ∈ pushWindow w r ∧
      (∀ y ∈ pushWindow w r,
        (pushWindow w r).count y ≤ (pushWindow w r).count (controlStep w r).2) ∧
      ∃ pre post, uniques (pushWindow w r) = pre ++ (controlStep w r).2 :: post ∧
        ∀ y ∈ pre,
          (pushWindow w r).count y < (pushWindow w r).count (controlStep w r).2) := by
  refine ⟨pushWindow_length_le w r, ?_, ?_⟩
  · intro h
    rw [controlStep_snd]
    unfold debounceOut
    rw [if_neg (by omega)]
  · intro h
    have hne : pushWindow w r ≠ [] := by
      intro he
      rw [he] at h
      simp at h
    obtain ⟨m, hm⟩ := mostCommon1_ne_none _ hne
    have hsnd : (controlStep w r).2 = m := by
      rw [controlStep_snd]
      unfold debounceOut
      rw [if_pos h, hm, Option.getD_some]
    obtain ⟨hmem, hcnt, pre, post, hu, hlt⟩ := mostCommon1_spec _ _ hm
    rw [hsnd]
    refine ⟨hmem, ?_, pre, post, hu, hlt⟩
    intro y hy
    rw [hcnt]
    exact count_le_maxCount _ y hy

/-- C5 witness: at window [LEFT, RIGHT, LEFT] with raw intent RIGHT the vote
branch applies (4 entries), and at the empty window with raw intent UP the
pass-through branch applies (1 entry). -/
theorem c5_debouncer_witness :
    (3 ≤ (pushWindow ["LEFT", "RIGHT", "LEFT"] "RIGHT").length ∧
      (controlStep ["LEFT", "RIGHT", "LEFT"] "RIGHT").2
        ∈ pushWindow ["LEFT", "RIGHT", "LEFT"] "RIGHT") ∧
    ((pushWindow [] "UP").length < 3 ∧ (controlStep [] "UP").2 = "UP") := by
  constructor
  · have h : 3 ≤ (pushWindow ["LEFT", "RIGHT", "LEFT"] "RIGHT").length := by
      decide
    exact ⟨h, ((c5_debouncer ["LEFT", "RIGHT", "LEFT"] "RIGHT").2.2 h).1⟩
  · have h : (pushWindow [] "UP").length < 3 := by decide
    exact ⟨h, (c5_debouncer [] "UP").2.1 h⟩

/-- C6: whenever `control_loop` emits CLICK, the prediction buffer is cleared,
so the immediately following call with a non-CLICK raw intent emits that raw
intent (the cleared window holds a single entry, below the voting size) and
in particular cannot re-emit CLICK. -/
theorem c6_click_clears_window (w : List String) (r r2 : String)
    (hc : (controlStep w r).2 = "CLICK") (hr : r2 ≠ "CLICK") :
    (controlStep w r).1 = [] ∧
    (controlStep (controlStep w r).1 r2).2 = r2 ∧
    (controlStep (controlStep w r).1 r2).2 ≠ "CLICK" := by
  have h1 : (controlStep w r).1 = [] := controlStep_click_clears w r hc
  have h2 : (controlStep ([] : List String) r2).2 = r2 := by
    rw [controlStep_snd]
    unfold debounceOut
    have hlen : (pushWindow [] r2).length = 1 := rfl
    rw [if_neg (by omega)]
  rw [h1]
  exact ⟨rfl, h2, by rw [h2]; exact hr⟩

/-- C6 witness: a window of two CLICKs plus a raw CLICK emits CLICK and
clears; the next call with LEFT emits LEFT. -/
theorem c6_click_clears_window_witness :
    (controlStep ["CLICK", "CLICK"] "CLICK").2 = "CLICK" ∧
    ("LEFT" : String) ≠ "CLICK" ∧
    (controlStep (controlStep ["CLICK", "CLICK"] "CLICK").1 "LEFT").2 = "LEFT" := by
  have h1 : (controlStep ["CLICK", "CLICK"] "CLICK").2 = "CLICK" := rfl
  have h2 : ("LEFT" : String) ≠ "CLICK" := by decide
  exact ⟨h1, h2, (c6_click_clears_window _ _ _ h1 h2).2.1⟩

/-- C7: if every sample observed during the calibration window has quality
worse than the acceptance ceiling, no sample is accepted, calibration
reports failure (success flag false, i.e. the "Failed - check signal
quality" warning path), and the previous baseline is returned completely
unchanged. -/
theorem c7_calibration_failure (samples : List CalSample) (b : Channel → ℚ)
    (h : ∀ s ∈ samples, 50 < s.sig) :
    calibrate samples b = (false, b) := by
  have hacc : acceptedSamples samples = [] := by
    rw [acceptedSamples, List.filter_eq_nil_iff]
    intro s hs
    simp only [decide_eq_true_eq]
    exact not_lt.mpr (le_of_lt (h s hs))
  simp [calibrate, hacc]

/-- A sample at the "no data" quality sentinel. -/
def noisySample : CalSample := { sig := 200, ch := fun _ => 0 }

/-- The baseline in place before a calibration run. -/
def prevBaseline : Channel → ℚ := fun _ => 50

/-- C7 witness: a run observing only a quality-200 sample fails and keeps
the previous baseline. -/
theorem c7_calibration_failure_witness :
    (∀ s ∈ [noisySample], 50 < s.sig) ∧
    calibrate [noisySample] prevBaseline = (false, prevBaseline) := by
  have h : ∀ s ∈ [noisySample], 50 < s.sig := by
    intro s hs
    rw [List.mem_singleton] at hs
    subst hs
    decide
  exact ⟨h, c7_calibration_failure _ _ h⟩

/-- A sample whose quality equals the acceptance threshold of 50. -/
def borderSample : CalSample := { sig := 50, ch := fun _ => 80 }

/-- C8 counterexample: a sample whose quality equals the threshold (50) is
rejected, because the acceptance test of `_run_calibration` is strictly
`sig < 50`; calibration observing only that sample therefore fails rather
than setting each channel's baseline to 80. -/
theorem c8_counterexample :
    borderSample.sig ≤ 50 ∧
    acceptedSamples [borderSample] = [] ∧
    calibrate [borderSample] prevBaseline = (false, prevBaseline) := by
  refine ⟨by decide, rfl, rfl⟩

/-- C8 (amended): calibration accepts exactly the samples whose quality is
strictly below the threshold 50 (a sample at exactly 50 is rejected), and
when at least one sample is accepted, each channel's new baseline value is
the arithmetic mean of that channel's values over the accepted samples. -/
theorem c8_calibration_mean (samples : List CalSample) (b : Channel → ℚ) :
    (∀ s, s ∈ acceptedSamples samples ↔ s ∈ samples ∧ s.sig < 50) ∧
    (acceptedSamples samples ≠ [] → ∀ k : Channel,
      (calibrate samples b).2 k
        = ((acceptedSamples samples).map fun s => s.ch k).sum
            / ((acceptedSamples samples).length : ℚ)) := by
  constructor
  · intro s
    rw [acceptedSamples, List.mem_filter]
    simp only [decide_eq_true_eq]
  · intro hne k
    have hlen : 0 < (acceptedSamples samples).length := List.length_pos.mpr hne
    simp only [calibrate]
    rw [if_pos hlen]

/-- An accepted calibration sample with all channels at 4. -/
def goodSampleA : CalSample := { sig := 10, ch := fun _ => 4 }

/-- An accepted calibration sample with all channels at 8. -/
def goodSampleB : CalSample := { sig := 20, ch := fun _ => 8 }

/-- C8 witness: calibrating over the two accepted samples with attention
values 4 and 8 sets the attention baseline to their mean 6. -/
theorem c8_calibration_mean_witness :
    acceptedSamples [goodSampleA, goodSampleB] ≠ [] ∧
    (calibrate [goodSampleA, goodSampleB] prevBaseline).2 Channel.att = 6 := by
  have hacc : acceptedSamples [goodSampleA, goodSampleB]
      = [goodSampleA, goodSampleB] := rfl
  have hne : acceptedSamples [goodSampleA, goodSampleB] ≠ [] := by
    rw [hacc]
    exact List.cons_ne_nil _ _
  refine ⟨hne, ?_⟩
  rw [(c8_calibration_mean [goodSampleA, goodSampleB] prevBaseline).2
    hne Channel.att]
  rw [hacc]
  norm_num [goodSampleA, goodSampleB]

/-- C9 counterexample: the EMA accumulator starts at 0.0 (module state of
`effort_based_control.py`), so on the single-value input sequence [10] the
first smoothed output is 0.2 * 10 = 2, not the first raw value 10 that the
claim's seeding rule would require. -/
theorem c9_counterexample :
    emaOutputs 0 [10] = [2] ∧ ((2 : ℚ)) ≠ 10 := by
  constructor
  · norm_num [emaOutputs, emaStep, EMA_ALPHA]
  · norm_num

/-- C9 (amended): every output of the EMA smoother, including the first,
equals EMA_ALPHA * value + (1 - EMA_ALPHA) * previousSmoothedValue, with the
accumulator seeded at 0 rather than at the first raw value; hence the first
output on any input sequence equals EMA_ALPHA times the first raw value. -/
theorem c9_ema_recurrence (a v : ℚ) (vs : List ℚ) :
    emaOutputs a (v :: vs)
      = (EMA_ALPHA * v + (1 - EMA_ALPHA) * a)
          :: emaOutputs (EMA_ALPHA * v + (1 - EMA_ALPHA) * a) vs ∧
    (emaOutputs 0 (v :: vs)).headD 0 = EMA_ALPHA * v := by
  constructor
  · rfl
  · show emaStep 0 v = EMA_ALPHA * v
    simp [emaStep]

/-- C10: the threshold decision function only ever produces LEFT, RIGHT, UP,
DOWN or IDLE and never CLICK, and consequently a control loop run in
Threshold mode (every raw prediction produced by `threshold_predict`,
starting from the initial empty prediction buffer) never emits CLICK: the
click action is unreachable from threshold-based decisions. -/
theorem c10_threshold_never_clicks :
    (∀ d : CurrentData,
      thresholdPredict d ∈ (["LEFT", "RIGHT", "UP", "DOWN", "IDLE"] : List String)) ∧
    (∀ d : CurrentData, thresholdPredict d ≠ "CLICK") ∧
    (∀ ds : List CurrentData, "CLICK" ∉ controlRun [] (ds.map thresholdPredict)) := by
  have hne : ∀ d : CurrentData, thresholdPredict d ≠ "CLICK" := by
    intro d
    unfold thresholdPredict
    split_ifs <;> decide
  refine ⟨?_, hne, ?_⟩
  · intro d
    unfold thresholdPredict
    split_ifs <;> decide
  · intro ds
    refine controlRun_no_click _ [] (by simp) ?_
    intro r hr
    obtain ⟨d, _, rfl⟩ := List.mem_map.mp hr
    exact hne d

/-- C10 witness: at the concrete low-beta-dominant tick, the threshold
decision is not CLICK and a one-tick threshold-mode run emits no CLICK. -/
theorem c10_threshold_never_clicks_witness :
    thresholdPredict noisyTick ≠ "CLICK" ∧
    "CLICK" ∉ controlRun [] ([noisyTick].map thresholdPredict) :=
  ⟨c10_threshold_never_clicks.2.1 noisyTick,
    c10_threshold_never_clicks.2.2 [noisyTick]⟩

end NeuroCursor
